import Mathlib

/-!
# Verification of the chat-history-manager entity model and request processing

A shallow embedding of the Rust sources of `chat-history-manager-backend`
(`src/utils/entity_utils.rs`, `src/json/telegram/parser_single.rs`,
`backend/src/grpc/server.rs`) together with proofs of the spec claims.

Strings are modelled by Lean `String` (a list of Unicode scalar values);
byte-level UTF-8 slicing in Rust is modelled at character granularity, which
coincides with the byte-level behaviour on the inputs considered here.
Rust panics (assertion failures, out-of-bounds indexing, `unreachable!`) are
modelled explicitly by a `panic` outcome, and `anyhow::Result` by `Except`.
-/

namespace Chm

/-- Outcome of a Rust computation that may return a value, return an error
(`anyhow::Result::Err`), or panic (assertions, indexing, `unreachable!`). -/
inductive POutcome (ε : Type) (α : Type) where
  | ok (a : α)
  | err (e : ε)
  | panic
  deriving DecidableEq, Repr

/-- Model of `PbUuid`: a string wrapper for a dataset UUID. -/
structure PbUuid where
  value : String
  deriving DecidableEq, Repr

/-- The literal placeholder `"[unnamed]"` from `entity_utils.rs`. -/
def UNNAMED : String := "[unnamed]"

/-- The protobuf-generated `User` entity: owner dataset uuid, id, and four
optional identity fields, exactly as used by `User::pretty_name`. -/
structure User where
  ds_uuid : Option PbUuid
  id : Int
  first_name_option : Option String
  last_name_option : Option String
  username_option : Option String
  phone_number_option : Option String
  deriving DecidableEq, Repr

/-- Embedding of `User::pretty_name_option` (entity_utils.rs:129-141): the match
on (first, last, phone, username) in priority order. -/
def User.pretty_name_option (u : User) : Option String :=
  match u.first_name_option, u.last_name_option,
        u.phone_number_option, u.username_option with
  | some fn, some ln, _, _ => some (fn ++ " " ++ ln)
  | some fn, none, _, _ => some fn
  | none, some ln, _, _ => some ln
  | none, none, some ph, _ => some ph
  | none, none, none, some un => some un
  | none, none, none, none => none

/-- Embedding of `User::pretty_name` (entity_utils.rs:143-145):
`pretty_name_option().unwrap_or(UNNAMED)`. -/
def User.pretty_name (u : User) : String :=
  (u.pretty_name_option).getD UNNAMED

/-- The ASCII space character, written via its code point. -/
def spaceChar : Char := Char.ofNat 32

/-- The Unicode category Z (separators: Zs, Zl, Zp), as matched by the regex
class `\p Z` in `normalize_seachable_string` (entity_utils.rs:515). -/
def isUnicodeSeparator (c : Char) : Bool :=
  let n := c.toNat
  n = 0x20 || n = 0xA0 || n = 0x1680 || (0x2000 ≤ n && n ≤ 0x200A) ||
  n = 0x2028 || n = 0x2029 || n = 0x202F || n = 0x205F || n = 0x3000

/-- The Unicode category Cf (invisible formatting characters), as matched by
the regex class `\p Cf` in `normalize_seachable_string` (entity_utils.rs:515). -/
def isInvisibleFormatting (c : Char) : Bool :=
  let n := c.toNat
  n = 0xAD || (0x600 ≤ n && n ≤ 0x605) || n = 0x61C || n = 0x6DD ||
  n = 0x70F || n = 0x890 || n = 0x891 || n = 0x8E2 || n = 0x180E ||
  (0x200B ≤ n && n ≤ 0x200F) || (0x202A ≤ n && n ≤ 0x202E) ||
  (0x2060 ≤ n && n ≤ 0x2064) || (0x2066 ≤ n && n ≤ 0x206F) ||
  n = 0xFEFF || (0xFFF9 ≤ n && n ≤ 0xFFFB) || n = 0x110BD || n = 0x110CD ||
  (0x13430 ≤ n && n ≤ 0x1343F) || (0x1BCA0 ≤ n && n ≤ 0x1BCA3) ||
  (0x1D173 ≤ n && n ≤ 0x1D17A) || n = 0xE0001 || (0xE0020 ≤ n && n ≤ 0xE007F)

/-- The full character class of the normalization regex
`[\p Z \p Cf \n]+` (entity_utils.rs:515): separators, invisible formatting
characters, and the newline. -/
def isCollapsible (c : Char) : Bool :=
  isUnicodeSeparator c || isInvisibleFormatting c || c.toNat = 10

/-- Rust `char::is_whitespace` (the Unicode White_Space property), used by
`str::trim`. -/
def isRustWhitespace (c : Char) : Bool :=
  let n := c.toNat
  (9 ≤ n && n ≤ 13) || n = 0x20 || n = 0x85 || n = 0xA0 || n = 0x1680 ||
  (0x2000 ≤ n && n ≤ 0x200A) || n = 0x2028 || n = 0x2029 || n = 0x202F ||
  n = 0x205F || n = 0x3000

/-- Characters untouched by both the normalization regex and Rust trim:
neither collapsible nor whitespace. Normalization preserves them in order. -/
def keepChar (c : Char) : Bool := !isCollapsible c && !isRustWhitespace c

/-- Model of `Regex::replace_all(s, " ")` for the regex `[\p Z \p Cf \n]+`: every
maximal run of collapsible characters is replaced by a single ASCII space.
The boolean flag records whether the previous character belonged to a run
(so that only the first character of a run emits the space). -/
def collapseAux : Bool → List Char → List Char
  | _, [] => []
  | prev, c :: rest =>
    if isCollapsible c then
      if prev then collapseAux true rest
      else spaceChar :: collapseAux true rest
    else c :: collapseAux false rest

/-- Rust `str::trim` on a character list: whitespace stripped from both ends. -/
def trimChars (l : List Char) : List Char :=
  ((l.dropWhile isRustWhitespace).reverse.dropWhile isRustWhitespace).reverse

/-- Rust `str::trim` on a `String`. -/
def trimRust (s : String) : String := ⟨trimChars s.data⟩

/-- Embedding of `normalize_seachable_string` (entity_utils.rs:510-518):
`NORMALIZE_REGEX.replace_all(s, " ").trim().to_owned()`. -/
def normalize_seachable_string (s : String) : String :=
  ⟨trimChars (collapseAux false s.data)⟩

/-- Model of `rich_text_element::Val`: exactly one styling variant per element. -/
inductive RteVal where
  | plain (text : String)
  | bold (text : String)
  | italic (text : String)
  | underline (text : String)
  | strikethrough (text : String)
  | blockquote (text : String)
  | spoiler (text : String)
  | link (text_option : Option String) (href : String) (hidden : Bool)
  | prefmtInline (text : String)
  | prefmtBlock (text : String) (language_option : Option String)
  deriving DecidableEq, Repr

/-- A rich-text element: its derived searchable string plus its variant. -/
structure RichTextElement where
  searchable_string : String
  val : Option RteVal
  deriving DecidableEq, Repr

/-- Model of `RichText::make_plain` (entity_utils.rs:343-348). -/
def RichText.make_plain (text : String) : RichTextElement :=
  { searchable_string := normalize_seachable_string text
    val := some (RteVal.plain text) }

/-- Model of `RichText::make_bold` (entity_utils.rs:350-355). -/
def RichText.make_bold (text : String) : RichTextElement :=
  { searchable_string := normalize_seachable_string text
    val := some (RteVal.bold text) }

/-- Model of `RichText::make_link` (entity_utils.rs:392-410): the searchable string is
the href when the (defaulted-empty) text equals it, else the Rust-trimmed
`text ++ " " ++ href`, normalized. -/
def RichText.make_link (text_option : Option String) (href : String)
    (hidden : Bool) : RichTextElement :=
  let text := text_option.getD ""
  let s := if text = href then href else trimRust (text ++ " " ++ href)
  { searchable_string := normalize_seachable_string s
    val := some (RteVal.link text_option href hidden) }

/-- Model of `ContentSticker` fields used by the embedded functions. -/
structure ContentSticker where
  path_option : Option String
  thumbnail_path_option : Option String
  emoji_option : Option String
  deriving DecidableEq, Repr

/-- Model of `ContentPhoto` fields used by the embedded functions. -/
structure ContentPhoto where
  path_option : Option String
  deriving DecidableEq, Repr

/-- Model of `ContentVoiceMsg` fields used by the embedded functions. -/
structure ContentVoiceMsg where
  path_option : Option String
  deriving DecidableEq, Repr

/-- Model of `ContentAudio` fields used by the embedded functions. -/
structure ContentAudio where
  path_option : Option String
  title_option : Option String
  performer_option : Option String
  deriving DecidableEq, Repr

/-- Model of `ContentVideoMsg` fields used by the embedded functions. -/
structure ContentVideoMsg where
  path_option : Option String
  thumbnail_path_option : Option String
  deriving DecidableEq, Repr

/-- Model of `ContentVideo` fields used by the embedded functions. -/
structure ContentVideo where
  path_option : Option String
  thumbnail_path_option : Option String
  title_option : Option String
  performer_option : Option String
  deriving DecidableEq, Repr

/-- Model of `ContentFile` fields used by the embedded functions. -/
structure ContentFile where
  path_option : Option String
  thumbnail_path_option : Option String
  file_name_option : Option String
  deriving DecidableEq, Repr

/-- Model of `ContentLocation` fields used by the embedded functions. -/
structure ContentLocation where
  address_option : Option String
  title_option : Option String
  lat_str : String
  lon_str : String
  deriving DecidableEq, Repr

/-- Model of `ContentPoll` fields used by the embedded functions. -/
structure ContentPoll where
  question : String
  deriving DecidableEq, Repr

/-- Model of `ContentSharedContact` fields used by the embedded functions. -/
structure ContentSharedContact where
  first_name_option : Option String
  last_name_option : Option String
  phone_number_option : Option String
  vcard_path_option : Option String
  deriving DecidableEq, Repr

/-- Model of `content::SealedValueOptional`: the closed set of content variants. -/
inductive ContentVal where
  | sticker (c : ContentSticker)
  | photo (c : ContentPhoto)
  | voiceMsg (c : ContentVoiceMsg)
  | audio (c : ContentAudio)
  | videoMsg (c : ContentVideoMsg)
  | video (c : ContentVideo)
  | file (c : ContentFile)
  | location (c : ContentLocation)
  | poll (c : ContentPoll)
  | sharedContact (c : ContentSharedContact)
  deriving DecidableEq, Repr

/-- Model of `Content`: a protobuf wrapper holding an optional sealed content value. -/
structure Content where
  sealed_value_optional : Option ContentVal
  deriving DecidableEq, Repr

/-- Model of `MessageRegular`: the Regular payload fields. -/
structure MessageRegular where
  edit_timestamp_option : Option Int
  is_deleted : Bool
  forward_from_name_option : Option String
  reply_to_message_id_option : Option Int
  content_option : Option Content
  deriving DecidableEq, Repr

/-- Model of `message_service::SealedValueOptional`: the closed set of service-event
variants, carrying the fields used by the embedded functions. -/
inductive ServiceVal where
  | phoneCall
  | suggestProfilePhoto
  | pinMessage
  | clearHistory
  | blockUser
  | statusTextChanged
  | notice
  | groupCreate (title : String) (members : List String)
  | groupEditTitle (title : String)
  | groupEditPhoto
  | groupDeletePhoto
  | groupInviteMembers (members : List String)
  | groupRemoveMembers (members : List String)
  | groupMigrateFrom (title : String)
  | groupMigrateTo
  | groupCall (members : List String)
  deriving DecidableEq, Repr

/-- Model of `MessageService`: a protobuf wrapper holding an optional sealed service
value. -/
structure MessageService where
  sealed_value_optional : Option ServiceVal
  deriving DecidableEq, Repr

/-- Model of `message::Typed`: exactly one of Regular or Service. -/
inductive Typed where
  | regular (m : MessageRegular)
  | service (m : MessageService)
  deriving DecidableEq, Repr

/-- Itertools `join(" ")` on a list of strings. -/
def joinSp : List String → String
  | [] => ""
  | [s] => s
  | s :: s2 :: rest => s ++ " " ++ joinSp (s2 :: rest)

/-- The `typed_component_text` match of `make_searchable_string`
(entity_utils.rs:528-568): the payload-specific text pieces. `none` models the
`unreachable!` panic hit by a Service payload with no sealed value. -/
def typedSearchableTexts : Typed → Option (List String)
  | Typed.regular mr =>
    some (match mr.content_option with
      | some ⟨some (ContentVal.sticker st)⟩ => st.emoji_option.toList
      | some ⟨some (ContentVal.audio f)⟩ =>
        [f.title_option, f.performer_option].filterMap id
      | some ⟨some (ContentVal.video f)⟩ =>
        [f.title_option, f.performer_option].filterMap id
      | some ⟨some (ContentVal.file f)⟩ => [f.file_name_option].filterMap id
      | some ⟨some (ContentVal.location loc)⟩ =>
        ([loc.address_option, loc.title_option].filterMap id) ++
          [loc.lat_str, loc.lon_str]
      | some ⟨some (ContentVal.poll p)⟩ => [p.question]
      | some ⟨some (ContentVal.sharedContact c)⟩ =>
        [c.first_name_option, c.last_name_option,
          c.phone_number_option].filterMap id
      | _ => [])
  | Typed.service ⟨some sv⟩ =>
    some (match sv with
      | ServiceVal.groupCreate title members => title :: members
      | ServiceVal.groupInviteMembers members => members
      | ServiceVal.groupRemoveMembers members => members
      | ServiceVal.groupMigrateFrom title => [title]
      | ServiceVal.groupCall members => members
      | _ => [])
  | Typed.service ⟨none⟩ => none

/-- Embedding of `make_searchable_string` (entity_utils.rs:520-576): the
nonempty element searchable strings joined by spaces, paired with the joined
payload texts; both parts trimmed, empty parts dropped, the rest joined by a
space and trimmed. Panics (via `unreachable!`) on a Service payload with no
sealed value. -/
def make_searchable_string (components : List RichTextElement) (typed : Typed) :
    POutcome Unit String :=
  match typedSearchableTexts typed with
  | none => POutcome.panic
  | some texts =>
    let joined_text :=
      joinSp ((components.map (fun rte => rte.searchable_string)).filter
        (fun s => !s.isEmpty))
    let parts := [joined_text, joinSp texts]
    POutcome.ok
      (trimRust (joinSp ((parts.map trimRust).filter (fun s => !s.isEmpty))))

/-- Written from the spec's words (claim C2): the space-joined concatenation
of (1) each element's own normalized searchable text with empty elements
excluded, followed by (2) the payload-specific text, with empty parts
excluded and each part trimmed. Payload pieces for the variants the claim
lists (Sticker, Audio, Video, Location, Poll, SharedContact,
GroupCreate/Invite/Remove/Call) are as the claim states; for variants the
claim is silent on (File, GroupMigrateFrom, the no-content cases) they follow
the code. -/
def searchableStringSpec (components : List RichTextElement) (typed : Typed) :
    Option String :=
  match typedSearchableTexts typed with
  | none => none
  | some texts =>
    let elementsPart :=
      joinSp ((components.map (fun rte => rte.searchable_string)).filter
        (fun s => !s.isEmpty))
    let payloadPart := joinSp texts
    some (joinSp (([elementsPart, payloadPart].map trimRust).filter
      (fun s => !s.isEmpty)))

/-- The protobuf-generated `Message` entity, as constructed by
`Message::new` (entity_utils.rs:247-264). -/
structure Message where
  internal_id : Int
  source_id_option : Option Int
  timestamp : Int
  from_id : Int
  text : List RichTextElement
  searchable_string : String
  typed : Option Typed
  deriving DecidableEq, Repr

/-- Embedding of `Message::new` (entity_utils.rs:247-264): derives the
searchable string from the text and payload and stores the payload as
`Some(typed)`. A panic of `make_searchable_string` propagates. -/
def Message.new (internal_id : Int) (source_id_option : Option Int)
    (timestamp : Int) (from_id : Int) (text : List RichTextElement)
    (typed : Typed) : POutcome Unit Message :=
  match make_searchable_string text typed with
  | POutcome.panic => POutcome.panic
  | POutcome.err e => POutcome.err e
  | POutcome.ok searchable_string =>
    POutcome.ok
      { internal_id := internal_id
        source_id_option := source_id_option
        timestamp := timestamp
        from_id := from_id
        text := text
        searchable_string := searchable_string
        typed := some typed }

/-- Embedding of `Message::typed` and `Message::typed_mut`
(entity_utils.rs:272-278): unwraps the payload, panicking with
"Invalid typed message" when it is absent. -/
def Message.typedOrPanic (m : Message) : POutcome Unit Typed :=
  match m.typed with
  | some t => POutcome.ok t
  | none => POutcome.panic

/-- Model of `MasterMessage`: a single-field wrapper over `Message` used during merge. -/
structure MasterMessage where
  msg : Message
  deriving Repr

/-- Model of `SlaveMessage`: a single-field wrapper over `Message` used during merge. -/
structure SlaveMessage where
  msg : Message
  deriving Repr

/-- Embedding of `impl PartialEq for MasterMessage` (entity_utils.rs:478-483):
equality of internal_id and source_id_option only. -/
def MasterMessage.eq (a b : MasterMessage) : Bool :=
  a.msg.internal_id == b.msg.internal_id &&
    a.msg.source_id_option == b.msg.source_id_option

/-- Embedding of `impl PartialEq for SlaveMessage` (entity_utils.rs:494-499):
equality of internal_id and source_id_option only. -/
def SlaveMessage.eq (a b : SlaveMessage) : Bool :=
  a.msg.internal_id == b.msg.internal_id &&
    a.msg.source_id_option == b.msg.source_id_option

/-- The path separator character. -/
def slashChar : Char := Char.ofNat 47

/-- Unix `Path::is_absolute`: the path has a root, i.e. starts with a slash. -/
def pathIsAbsolute (p : String) : Bool :=
  match p.data with
  | [] => false
  | c :: _ => c == slashChar

/-- Model of `PathBuf::join` with a relative argument: append, inserting a separator
unless the base is empty or already ends with one. -/
def pathJoin (root p : String) : String :=
  if root.data = [] then p
  else if root.data.getLast? = some slashChar then root ++ p
  else root ++ "/" ++ p

/-- Rust `str::starts_with` on whole strings. -/
def strStartsWith (s pre : String) : Bool := pre.data.isPrefixOf s.data

/-- Model of `DatasetRoot`: a wrapper over the dataset's root path. -/
structure DatasetRoot where
  path : String
  deriving DecidableEq, Repr

/-- Embedding of `DatasetRoot::to_absolute` (entity_utils.rs:33-37): asserts
the input is relative (panicking otherwise) and joins it onto the root. -/
def DatasetRoot.to_absolute (ds : DatasetRoot) (path_str : String) :
    POutcome Unit String :=
  if pathIsAbsolute path_str then POutcome.panic
  else POutcome.ok (pathJoin ds.path path_str)

/-- Embedding of `DatasetRoot::to_relative` (entity_utils.rs:39-49) applied to
the already-canonicalized input (`Path::canonicalize` is I/O and is modelled
as having already produced `canonicalized`): asserts the root is absolute,
accepts exactly the inputs whose string form starts with the root string
(`path.starts_with(ds_root)`), and returns the slice after root-length+1
characters; slicing panics when the input equals the root. Rust slices by
UTF-8 byte index; this model counts characters, which coincides on the inputs
considered (the slice bound is the length of the root itself). -/
def DatasetRoot.to_relative (ds : DatasetRoot) (canonicalized : String) :
    POutcome String String :=
  if pathIsAbsolute ds.path = false then POutcome.panic
  else if strStartsWith canonicalized ds.path then
    if ds.path.data.length + 1 ≤ canonicalized.data.length then
      POutcome.ok ⟨canonicalized.data.drop (ds.path.data.length + 1)⟩
    else POutcome.panic
  else
    POutcome.err ("Path " ++ canonicalized ++ " is not under dataset root "
      ++ ds.path)

/-- Written from the spec's words: a path resides under the dataset root when
it is the root followed by a separator and a nonempty remainder. -/
def residesUnder (root path : String) : Bool :=
  (root.data ++ [slashChar]).isPrefixOf path.data &&
    decide (root.data.length + 1 < path.data.length)

/-- A `Mutex`/`RwLock` acquisition outcome: the guarded value, or poisoning
by a prior panic. -/
inductive LockState (α : Type) where
  | healthy (a : α)
  | poisoned
  deriving DecidableEq, Repr

/-- The tonic status codes used by `grpc/server.rs`. -/
inductive Code where
  | internal
  | failedPrecondition
  deriving DecidableEq, Repr

/-- A tonic `Status`: code plus message. -/
structure Status where
  code : Code
  message : String
  deriving DecidableEq, Repr

/-- Embedding of `lock_or_status` (server.rs:122-124). -/
def lock_or_status {α : Type} : LockState α → Except Status α
  | LockState.healthy a => Except.ok a
  | LockState.poisoned =>
    Except.error ⟨Code.internal, "Mutex is poisoned!"⟩

/-- Embedding of `read_or_status` (server.rs:126-128). -/
def read_or_status {α : Type} : LockState α → Except Status α
  | LockState.healthy a => Except.ok a
  | LockState.poisoned =>
    Except.error ⟨Code.internal, "RwLock is poisoned!"⟩

/-- Embedding of `process_request` (server.rs:62-74): runs the logic and maps
any error to `Code::Internal` with the error's message (`error_to_string` is
modelled as the identity on the message; logging is omitted). -/
def process_request {Q P : Type} (logic : Q → Except String P) (q : Q) :
    Except Status P :=
  match logic q with
  | Except.ok p => Except.ok p
  | Except.error e => Except.error ⟨Code.internal, e⟩

/-- Model of `IndexMap::get` on the registry, modelled as first-match lookup in an
association list. -/
def lookupDao {α : Type} (daos : List (String × α)) (key : String) :
    Option α :=
  (daos.find? (fun kv => kv.1 == key)).map (fun kv => kv.2)

/-- Embedding of `process_request_with_dao` (server.rs:76-88): read the
registry lock, look up the key (absent keys fail with
`Code::FailedPrecondition` naming the key), lock the dao mutex, then run the
request through `process_request`. -/
def process_request_with_dao {Q P Dao : Type}
    (registry : LockState (List (String × LockState Dao))) (key : String)
    (logic : Q → Dao → Except String P) (q : Q) : Except Status P :=
  match read_or_status registry with
  | Except.error st => Except.error st
  | Except.ok daos =>
    match lookupDao daos key with
    | none =>
      Except.error ⟨Code.failedPrecondition,
        "Database with key " ++ key ++ " is not loaded!"⟩
    | some daoLock =>
      match lock_or_status daoLock with
      | Except.error st => Except.error st
      | Except.ok dao => process_request (fun q2 => logic q2 dao) q

/-- The protobuf-generated `Chat` entity fields used by the embedded code. -/
structure Chat where
  ds_uuid : Option PbUuid
  id : Int
  name_option : Option String
  member_ids : List Int
  deriving DecidableEq, Repr

/-- Model of `ChatWithMessages`: an optional chat plus its messages. -/
structure ChatWithMessages where
  chat : Option Chat
  messages : List Message
  deriving DecidableEq, Repr

/-- Embedding of `parse` (json/telegram/parser_single.rs:4-28). `parse_chat`
is abstracted by its result (the accumulated users, in map-value order, and
the chat with messages); the myself chooser is the resolver callback. The
returned pair is (final state of the `myself` accumulator, outcome): on any
error the accumulator is returned untouched; on success all five fields of
the chosen candidate are applied; an out-of-range chooser index panics via
`users_vec[myself_idx]`. -/
def parse (parse_chat_result : Except String (List User × ChatWithMessages))
    (ds_uuid : PbUuid) (myself_chooser : List User → Except String Nat)
    (myself : User) :
    User × POutcome String (List User × List ChatWithMessages) :=
  match parse_chat_result with
  | Except.error e => (myself, POutcome.err e)
  | Except.ok (users, cwm0) =>
    let cwm : ChatWithMessages :=
      { cwm0 with
          chat := cwm0.chat.map (fun c => { c with ds_uuid := some ds_uuid }) }
    let chats_with_messages := [cwm]
    match myself_chooser users with
    | Except.error e => (myself, POutcome.err e)
    | Except.ok idx =>
      if h : idx < users.length then
        let myself2 := users.get ⟨idx, h⟩
        ({ myself with
            id := myself2.id
            first_name_option := myself2.first_name_option
            last_name_option := myself2.last_name_option
            username_option := myself2.username_option
            phone_number_option := myself2.phone_number_option },
          POutcome.ok (users, chats_with_messages))
      else (myself, POutcome.panic)

/-- Model of `Iterator::position`: index of the first element satisfying the
predicate. -/
def position {α : Type} (p : α → Bool) : List α → Option Nat
  | [] => none
  | u :: rest => if p u then some 0 else (position p rest).map (fun i => i + 1)

/-- Model of `ChatWithDetails` (entity_utils.rs:162-168): a chat, an optional last
message, and the member list whose first element must be myself. -/
structure ChatWithDetails where
  chat : Chat
  last_msg_option : Option Message
  members : List User
  deriving DecidableEq, Repr

/-- Embedding of `ChatWithDetails::resolve_member_index`
(entity_utils.rs:178-180): position of the first member whose pretty name
equals the given name. -/
def ChatWithDetails.resolve_member_index (c : ChatWithDetails)
    (member_name : String) : Option Nat :=
  position (fun m => m.pretty_name == member_name) c.members

/-- Embedding of `ChatWithDetails::resolve_member` (entity_utils.rs:183-185):
the member at the resolved index (the index returned by `position` is always
in bounds, so the lookup never fails). -/
def ChatWithDetails.resolve_member (c : ChatWithDetails)
    (member_name : String) : Option User :=
  (c.resolve_member_index member_name).bind (fun i => c.members[i]?)

/-- Embedding of `ChatWithDetails::resolve_members`
(entity_utils.rs:187-189). -/
def ChatWithDetails.resolve_members (c : ChatWithDetails)
    (member_names : List String) : List (Option User) :=
  member_names.map (fun mn => c.resolve_member mn)

end Chm

lemma chm_dropWhile_head_false (p : Char → Bool) :
    ∀ (l : List Char) (c : Char) (t : List Char),
      l.dropWhile p = c :: t → p c = false := by
  intro l
  induction l with
  | nil => intro c t h; simp at h
  | cons a l2 ih =>
    intro c t h
    by_cases hp : p a
    · rw [List.dropWhile_cons_of_pos hp] at h
      exact ih c t h
    · rw [List.dropWhile_cons_of_neg hp] at h
      cases h
      simpa using hp

lemma chm_getLast_dropWhile (p : Char → Bool) (l : List Char)
    (h : l.dropWhile p ≠ []) : (l.dropWhile p).getLast? = l.getLast? := by
  obtain ⟨s, hs⟩ := (List.dropWhile_suffix (l := l) p)
  conv_rhs => rw [← hs]
  exact (List.getLast?_append_of_ne_nil s h).symm

lemma chm_trimChars_head_false (l : List Char) (c : Char) (t : List Char)
    (h : Chm.trimChars l = c :: t) : Chm.isRustWhitespace c = false := by
  unfold Chm.trimChars at h
  have hYne : (l.dropWhile Chm.isRustWhitespace).reverse.dropWhile
      Chm.isRustWhitespace ≠ [] := by
    intro e; rw [e] at h; simp at h
  have h1 := chm_getLast_dropWhile Chm.isRustWhitespace
    (l.dropWhile Chm.isRustWhitespace).reverse hYne
  rw [List.getLast?_reverse] at h1
  have h3 : ((l.dropWhile Chm.isRustWhitespace).reverse.dropWhile
      Chm.isRustWhitespace).reverse.head? = some c := by rw [h]; rfl
  rw [List.head?_reverse] at h3
  rw [h1] at h3
  cases hd : l.dropWhile Chm.isRustWhitespace with
  | nil => rw [hd] at h3; simp at h3
  | cons a t2 =>
    rw [hd] at h3
    simp at h3
    subst h3
    exact chm_dropWhile_head_false Chm.isRustWhitespace l _ _ hd

lemma chm_trimChars_reverse_head_false (l : List Char) (c : Char)
    (t : List Char) (h : (Chm.trimChars l).reverse = c :: t) :
    Chm.isRustWhitespace c = false := by
  unfold Chm.trimChars at h
  rw [List.reverse_reverse] at h
  exact chm_dropWhile_head_false Chm.isRustWhitespace _ _ _ h

lemma chm_dropWhile_eq_self (p : Char → Bool) (l : List Char)
    (h : ∀ c t, l = c :: t → p c = false) : l.dropWhile p = l := by
  cases l with
  | nil => rfl
  | cons c t => exact List.dropWhile_cons_of_neg (by simp [h c t rfl])

lemma chm_trimChars_eq_self (l : List Char)
    (h1 : ∀ c t, l = c :: t → Chm.isRustWhitespace c = false)
    (h2 : ∀ c t, l.reverse = c :: t → Chm.isRustWhitespace c = false) :
    Chm.trimChars l = l := by
  unfold Chm.trimChars
  rw [chm_dropWhile_eq_self _ l h1, chm_dropWhile_eq_self _ l.reverse h2,
    List.reverse_reverse]

lemma chm_trimRust_idem (x : String) :
    Chm.trimRust (Chm.trimRust x) = Chm.trimRust x := by
  apply String.ext
  show Chm.trimChars (Chm.trimChars x.data) = Chm.trimChars x.data
  apply chm_trimChars_eq_self
  · exact fun c t h => chm_trimChars_head_false x.data c t h
  · exact fun c t h => chm_trimChars_reverse_head_false x.data c t h

lemma chm_trimRust_ne_data (y : String) (hy : Chm.trimRust y ≠ "") :
    Chm.trimChars y.data ≠ [] :=
  fun e => hy (String.ext e)

lemma chm_trimRust_append_space (x y : String)
    (hx : Chm.trimRust x ≠ "") (hy : Chm.trimRust y ≠ "") :
    Chm.trimRust (Chm.trimRust x ++ " " ++ Chm.trimRust y) =
      Chm.trimRust x ++ " " ++ Chm.trimRust y := by
  apply String.ext
  have hdata : (Chm.trimRust x ++ " " ++ Chm.trimRust y).data
      = Chm.trimChars x.data ++ Chm.spaceChar :: Chm.trimChars y.data := by
    rw [String.data_append, String.data_append]
    simp [Chm.trimRust, Chm.spaceChar]
  show Chm.trimChars (Chm.trimRust x ++ " " ++ Chm.trimRust y).data
      = (Chm.trimRust x ++ " " ++ Chm.trimRust y).data
  rw [hdata]
  apply chm_trimChars_eq_self
  · intro c t h
    cases hA : Chm.trimChars x.data with
    | nil => exact absurd hA (chm_trimRust_ne_data x hx)
    | cons a A2 =>
      rw [hA, List.cons_append] at h
      cases h
      exact chm_trimChars_head_false x.data _ _ hA
  · intro c t h
    rw [List.reverse_append, List.reverse_cons] at h
    cases hB : (Chm.trimChars y.data).reverse with
    | nil =>
      exact absurd (by simpa using hB) (chm_trimRust_ne_data y hy)
    | cons b B2 =>
      rw [hB, List.append_assoc, List.cons_append] at h
      cases h
      exact chm_trimChars_reverse_head_false y.data _ _ hB

lemma chm_trimRust_empty : Chm.trimRust "" = "" := rfl

lemma chm_isEmpty_false_ne (s : String) (h : s.isEmpty = false) : s ≠ "" := by
  intro e
  rw [e] at h
  simp [String.isEmpty] at h

lemma chm_trim_join_filter_two (x y : String) :
    Chm.trimRust (Chm.joinSp (([x, y].map Chm.trimRust).filter
        (fun s => !s.isEmpty)))
      = Chm.joinSp (([x, y].map Chm.trimRust).filter (fun s => !s.isEmpty)) := by
  simp only [List.map]
  cases hx : (Chm.trimRust x).isEmpty <;> cases hy : (Chm.trimRust y).isEmpty <;>
    simp only [List.filter, hx, hy, Bool.not_true, Bool.not_false]
  · exact chm_trimRust_append_space x y
      (chm_isEmpty_false_ne _ hx) (chm_isEmpty_false_ne _ hy)
  · exact chm_trimRust_idem x
  · exact chm_trimRust_idem y
  · exact chm_trimRust_empty

lemma chm_space_collapsible : Chm.isCollapsible Chm.spaceChar = true := by decide

lemma chm_keep_space : Chm.keepChar Chm.spaceChar = false := by decide

lemma chm_collapse_cons_pos_false (a : Char) (l2 : List Char)
    (ha : Chm.isCollapsible a = true) :
    Chm.collapseAux false (a :: l2)
      = Chm.spaceChar :: Chm.collapseAux true l2 := by
  simp [Chm.collapseAux, ha]

lemma chm_collapse_cons_pos_true (a : Char) (l2 : List Char)
    (ha : Chm.isCollapsible a = true) :
    Chm.collapseAux true (a :: l2) = Chm.collapseAux true l2 := by
  simp [Chm.collapseAux, ha]

lemma chm_collapse_cons_neg (b : Bool) (a : Char) (l2 : List Char)
    (ha : Chm.isCollapsible a = false) :
    Chm.collapseAux b (a :: l2) = a :: Chm.collapseAux false l2 := by
  simp [Chm.collapseAux, ha]

lemma chm_collapse_mem_space :
    ∀ (l : List Char) (b : Bool) (c : Char), c ∈ Chm.collapseAux b l →
      Chm.isCollapsible c = true → c = Chm.spaceChar := by
  intro l
  induction l with
  | nil => intro b c hc; simp [Chm.collapseAux] at hc
  | cons a l2 ih =>
    intro b c hc hcol
    by_cases ha : Chm.isCollapsible a
    · cases b
      · rw [chm_collapse_cons_pos_false a l2 ha, List.mem_cons] at hc
        rcases hc with rfl | hc
        · rfl
        · exact ih true c hc hcol
      · rw [chm_collapse_cons_pos_true a l2 ha] at hc
        exact ih true c hc hcol
    · rw [chm_collapse_cons_neg b a l2 (by simpa using ha), List.mem_cons] at hc
      rcases hc with rfl | hc
      · exact absurd hcol (by simpa using ha)
      · exact ih false c hc hcol

lemma chm_collapse_true_head :
    ∀ (l : List Char) (c : Char) (t : List Char),
      Chm.collapseAux true l = c :: t → Chm.isCollapsible c = false := by
  intro l
  induction l with
  | nil => intro c t h; simp [Chm.collapseAux] at h
  | cons a l2 ih =>
    intro c t h
    by_cases ha : Chm.isCollapsible a
    · rw [chm_collapse_cons_pos_true a l2 ha] at h
      exact ih c t h
    · rw [chm_collapse_cons_neg true a l2 (by simpa using ha)] at h
      cases h
      simpa using ha

lemma chm_collapse_chain :
    ∀ (l : List Char) (b : Bool),
      List.Chain' (fun a b2 => ¬(a = Chm.spaceChar ∧ b2 = Chm.spaceChar))
        (Chm.collapseAux b l) := by
  intro l
  induction l with
  | nil => intro b; simp [Chm.collapseAux]
  | cons a l2 ih =>
    intro b
    by_cases ha : Chm.isCollapsible a
    · cases b
      · rw [chm_collapse_cons_pos_false a l2 ha, List.chain'_cons']
        refine ⟨?_, ih true⟩
        intro y hy
        cases hh : Chm.collapseAux true l2 with
        | nil => rw [hh] at hy; simp at hy
        | cons c2 t2 =>
          rw [hh] at hy
          simp at hy
          subst hy
          rintro ⟨-, rfl⟩
          exact absurd (chm_collapse_true_head l2 _ _ hh)
            (by simp [chm_space_collapsible])
      · rw [chm_collapse_cons_pos_true a l2 ha]
        exact ih true
    · rw [chm_collapse_cons_neg b a l2 (by simpa using ha), List.chain'_cons']
      refine ⟨?_, ih false⟩
      intro y hy
      rintro ⟨rfl, -⟩
      exact absurd chm_space_collapsible (by simpa using ha)

lemma chm_collapse_filter :
    ∀ (l : List Char) (b : Bool),
      (Chm.collapseAux b l).filter Chm.keepChar = l.filter Chm.keepChar := by
  intro l
  induction l with
  | nil => intro b; rfl
  | cons a l2 ih =>
    intro b
    by_cases ha : Chm.isCollapsible a
    · have hka : Chm.keepChar a = false := by simp [Chm.keepChar, ha]
      cases b
      · rw [chm_collapse_cons_pos_false a l2 ha, List.filter_cons,
          List.filter_cons]
        simp only [chm_keep_space, hka, Bool.false_eq_true, if_false]
        exact ih true
      · rw [chm_collapse_cons_pos_true a l2 ha, List.filter_cons]
        simp only [hka, Bool.false_eq_true, if_false]
        exact ih true
    · rw [chm_collapse_cons_neg b a l2 (by simpa using ha), List.filter_cons,
        List.filter_cons, ih false]

lemma chm_dropWhile_filter (l : List Char) :
    (l.dropWhile Chm.isRustWhitespace).filter Chm.keepChar
      = l.filter Chm.keepChar := by
  conv_rhs => rw [← List.takeWhile_append_dropWhile Chm.isRustWhitespace l]
  rw [List.filter_append]
  have h0 : (l.takeWhile Chm.isRustWhitespace).filter Chm.keepChar = [] := by
    rw [List.filter_eq_nil_iff]
    intro a ha
    have hws := List.mem_takeWhile_imp ha
    simp [Chm.keepChar, hws]
  rw [h0, List.nil_append]

lemma chm_trimChars_filter (l : List Char) :
    (Chm.trimChars l).filter Chm.keepChar = l.filter Chm.keepChar := by
  unfold Chm.trimChars
  rw [List.filter_reverse, chm_dropWhile_filter, List.filter_reverse,
    chm_dropWhile_filter, List.reverse_reverse]

lemma chm_chain_flip (l : List Char)
    (h : List.Chain' (fun a b2 => ¬(a = Chm.spaceChar ∧ b2 = Chm.spaceChar)) l) :
    List.Chain' (fun a b2 => ¬(a = Chm.spaceChar ∧ b2 = Chm.spaceChar))
      l.reverse := by
  rw [List.chain'_reverse]
  exact h.imp (fun a b hab h2 => hab ⟨h2.2, h2.1⟩)

lemma chm_trimChars_chain (l : List Char)
    (h : List.Chain' (fun a b2 => ¬(a = Chm.spaceChar ∧ b2 = Chm.spaceChar)) l) :
    List.Chain' (fun a b2 => ¬(a = Chm.spaceChar ∧ b2 = Chm.spaceChar))
      (Chm.trimChars l) := by
  unfold Chm.trimChars
  apply chm_chain_flip
  exact (chm_chain_flip _ (h.suffix (List.dropWhile_suffix _))).suffix
    (List.dropWhile_suffix _)

lemma chm_trimChars_mem (l : List Char) (c : Char) (hc : c ∈ Chm.trimChars l) :
    c ∈ l := by
  unfold Chm.trimChars at hc
  rw [List.mem_reverse] at hc
  have h1 := (List.dropWhile_suffix (l := (l.dropWhile Chm.isRustWhitespace).reverse)
    Chm.isRustWhitespace).subset hc
  rw [List.mem_reverse] at h1
  exact (List.dropWhile_suffix (l := l) Chm.isRustWhitespace).subset h1

/-- C1 (amended): `pretty_name` never fails and resolves in priority order
(first+last, then first, then last, then phone, then username); all four
fields absent yields the placeholder `"[unnamed]"`; the underlying optional
resolution is `none` iff all four fields are absent; and the returned string
equals `"[unnamed]"` iff either all four are absent or the field selected by
the priority order is itself the literal string `"[unnamed]"`. -/
theorem user_pretty_name_resolution (ds : Option Chm.PbUuid) (i : Int)
    (f l ph un : String) (po uo : Option String) :
    Chm.User.pretty_name ⟨ds, i, some f, some l, uo, po⟩ = f ++ " " ++ l ∧
    Chm.User.pretty_name ⟨ds, i, some f, none, uo, po⟩ = f ∧
    Chm.User.pretty_name ⟨ds, i, none, some l, uo, po⟩ = l ∧
    Chm.User.pretty_name ⟨ds, i, none, none, uo, some ph⟩ = ph ∧
    Chm.User.pretty_name ⟨ds, i, none, none, some un, none⟩ = un ∧
    Chm.User.pretty_name ⟨ds, i, none, none, none, none⟩ = Chm.UNNAMED ∧
    (∀ u : Chm.User, u.pretty_name_option = none ↔
      u.first_name_option = none ∧ u.last_name_option = none ∧
      u.phone_number_option = none ∧ u.username_option = none) ∧
    (∀ u : Chm.User, u.pretty_name = Chm.UNNAMED ↔
      (u.pretty_name_option = none ∨ u.pretty_name_option = some Chm.UNNAMED)) := by
  refine ⟨rfl, rfl, rfl, rfl, rfl, rfl, ?_, ?_⟩
  · intro u
    rcases u with ⟨_, _, fo, lo, uo2, po2⟩
    cases fo <;> cases lo <;> cases po2 <;> cases uo2 <;>
      simp [Chm.User.pretty_name_option]
  · intro u
    cases h : u.pretty_name_option <;> simp [Chm.User.pretty_name, h]

/-- C1 counterexample: a user whose first name is the literal string
`"[unnamed]"` (all other fields absent) makes `pretty_name` return
`"[unnamed]"` although not all four identity fields are absent, refuting the
claimed "if and only if". -/
theorem user_pretty_name_unnamed_cex :
    Chm.User.pretty_name ⟨none, 1, some Chm.UNNAMED, none, none, none⟩ =
      Chm.UNNAMED ∧
    (⟨none, 1, some Chm.UNNAMED, none, none, none⟩ : Chm.User).first_name_option
      ≠ none := by
  exact ⟨rfl, by simp⟩

/-- C1 witness: the theorem applied at a concrete user with both names. -/
theorem user_pretty_name_resolution_witness :
    Chm.User.pretty_name ⟨none, 1, some "Ada", some "L", none, none⟩
      = "Ada L" :=
  ((user_pretty_name_resolution none 1 "Ada" "L" "p" "u" none none).1).trans
    (by decide)

/-- C8: `to_absolute` panics (assertion failure) exactly when the input path
is already absolute, and for every relative input returns the dataset root
joined with the input, without failing. -/
theorem dataset_root_to_absolute_guard (ds : Chm.DatasetRoot) (p : String) :
    (Chm.DatasetRoot.to_absolute ds p = Chm.POutcome.panic ↔
      Chm.pathIsAbsolute p = true) ∧
    (Chm.pathIsAbsolute p = false →
      Chm.DatasetRoot.to_absolute ds p =
        Chm.POutcome.ok (Chm.pathJoin ds.path p)) := by
  by_cases h : Chm.pathIsAbsolute p = true
  · simp [Chm.DatasetRoot.to_absolute, h]
  · simp [Chm.DatasetRoot.to_absolute, h]

/-- C8 witness: a relative input joined onto the root `/data`. -/
theorem dataset_root_to_absolute_guard_witness :
    Chm.DatasetRoot.to_absolute ⟨"/data"⟩ "photos/img.jpg" =
      Chm.POutcome.ok "/data/photos/img.jpg" :=
  ((dataset_root_to_absolute_guard ⟨"/data"⟩ "photos/img.jpg").2
    (by decide)).trans (by decide)

/-- C3: `to_relative` checks residence under the root by a raw string-prefix
test, so the sibling path `/a/bc` of root `/a/b` is wrongly accepted
(returning `""`, and `/a/bc/d` returns `"/d"`) although neither resides under
the root; a genuinely-under path succeeds with the remainder, and an input
equal to the root panics on the out-of-bounds slice. -/
theorem to_relative_prefix_accepts_sibling :
    Chm.DatasetRoot.to_relative ⟨"/a/b"⟩ "/a/bc" = Chm.POutcome.ok "" ∧
    Chm.residesUnder "/a/b" "/a/bc" = false ∧
    Chm.DatasetRoot.to_relative ⟨"/a/b"⟩ "/a/bc/d" = Chm.POutcome.ok "/d" ∧
    Chm.residesUnder "/a/b" "/a/bc/d" = false ∧
    Chm.DatasetRoot.to_relative ⟨"/a/b"⟩ "/a/b/c.jpg" =
      Chm.POutcome.ok "c.jpg" ∧
    Chm.residesUnder "/a/b" "/a/b/c.jpg" = true ∧
    Chm.DatasetRoot.to_relative ⟨"/a/b"⟩ "/a/b" = Chm.POutcome.panic ∧
    Chm.DatasetRoot.to_relative ⟨"/a/b"⟩ "/x/y" =
      Chm.POutcome.err "Path /x/y is not under dataset root /a/b" := by
  decide

lemma chm_getElem_mem {α : Type} (l : List α) (i : Nat) (a : α)
    (h : l[i]? = some a) : a ∈ l := by
  obtain ⟨hi, rfl⟩ := List.getElem?_eq_some.mp h
  exact List.getElem_mem hi

lemma chm_position_none {α : Type} (p : α → Bool) :
    ∀ l : List α, Chm.position p l = none ↔ ∀ u ∈ l, p u = false := by
  intro l
  induction l with
  | nil => simp [Chm.position]
  | cons a l2 ih =>
    by_cases hp : p a = true
    · simp [Chm.position, hp]
    · have hp2 : p a = false := by simpa using hp
      simp [Chm.position, hp2, ih]

lemma chm_position_some {α : Type} (p : α → Bool) :
    ∀ (l : List α) (i : Nat), Chm.position p l = some i ↔
      ((∃ u, l[i]? = some u ∧ p u = true) ∧
        ∀ j, j < i → ∀ u, l[j]? = some u → p u = false) := by
  intro l
  induction l with
  | nil =>
    intro i
    constructor
    · intro h
      exact Option.noConfusion h
    · rintro ⟨⟨u, hu, _⟩, _⟩
      exact Option.noConfusion hu
  | cons a l2 ih =>
    intro i
    by_cases hp : p a = true
    · rw [show Chm.position p (a :: l2) = some 0 by simp [Chm.position, hp]]
      constructor
      · intro h
        injection h with h0
        subst h0
        refine ⟨⟨a, by simp, hp⟩, ?_⟩
        intro j hj
        exact absurd hj (Nat.not_lt_zero j)
      · rintro ⟨⟨u, hu, hpu⟩, hmin⟩
        cases i with
        | zero => rfl
        | succ k =>
          exact absurd (hmin 0 (Nat.succ_pos k) a (by simp)) (by simp [hp])
    · have hp2 : p a = false := by simpa using hp
      rw [show Chm.position p (a :: l2)
        = (Chm.position p l2).map (fun i => i + 1) by simp [Chm.position, hp2]]
      cases i with
      | zero =>
        constructor
        · intro h
          cases hx : Chm.position p l2 with
          | none => rw [hx] at h; exact Option.noConfusion h
          | some k => rw [hx] at h; simp at h
        · rintro ⟨⟨u, hu, hpu⟩, hmin⟩
          rw [List.getElem?_cons_zero] at hu
          injection hu with hu2
          subst hu2
          exact absurd hpu (by simp [hp2])
      | succ k =>
        constructor
        · intro h
          have hx : Chm.position p l2 = some k := by
            cases hx2 : Chm.position p l2 with
            | none => rw [hx2] at h; exact Option.noConfusion h
            | some k2 =>
              rw [hx2] at h
              have h3 : some (k2 + 1) = some (k + 1) := h
              injection h3 with h4
              rw [show k2 = k by omega]
          obtain ⟨⟨u, hu, hpu⟩, hmin⟩ := (ih k).mp hx
          refine ⟨⟨u, by simpa using hu, hpu⟩, ?_⟩
          intro j hj v hv
          cases j with
          | zero =>
            rw [List.getElem?_cons_zero] at hv
            injection hv with hv2
            subst hv2
            exact hp2
          | succ j2 =>
            exact hmin j2 (by omega) v (by simpa using hv)
        · rintro ⟨⟨u, hu, hpu⟩, hmin⟩
          have hx : Chm.position p l2 = some k := by
            apply (ih k).mpr
            refine ⟨⟨u, by simpa using hu, hpu⟩, ?_⟩
            intro j hj v hv
            exact hmin (j + 1) (by omega) v (by simpa using hv)
          rw [hx]
          rfl

/-- C9: `resolve_member` returns `some u` exactly when `u` is the member at
the smallest index whose `pretty_name` equals the requested name exactly, and
returns `none` (rather than failing) exactly when no member's pretty name
matches; `resolve_members` maps this resolution over the names in order,
returning one entry per input name. -/
theorem resolve_member_exact_match :
    (∀ (c : Chm.ChatWithDetails) (name : String) (u : Chm.User),
      c.resolve_member name = some u ↔
        ∃ i : Nat, c.members[i]? = some u ∧ u.pretty_name = name ∧
          ∀ j : Nat, j < i → ∀ v : Chm.User, c.members[j]? = some v →
            v.pretty_name ≠ name) ∧
    (∀ (c : Chm.ChatWithDetails) (name : String),
      c.resolve_member name = none ↔
        ∀ u ∈ c.members, u.pretty_name ≠ name) ∧
    (∀ (c : Chm.ChatWithDetails) (names : List String),
      (c.resolve_members names).length = names.length) ∧
    (∀ (c : Chm.ChatWithDetails) (names : List String) (i : Nat),
      (c.resolve_members names)[i]? =
        (names[i]?).map (fun mn => c.resolve_member mn)) := by
  refine ⟨?_, ?_, ?_, ?_⟩
  · intro c name u
    unfold Chm.ChatWithDetails.resolve_member
      Chm.ChatWithDetails.resolve_member_index
    constructor
    · intro h
      obtain ⟨i, hpos, hget⟩ := Option.bind_eq_some.mp h
      obtain ⟨⟨v, hv, hpv⟩, hmin⟩ :=
        (chm_position_some (fun m => m.pretty_name == name) c.members i).mp hpos
      rw [hv] at hget
      injection hget with hvu
      subst hvu
      refine ⟨i, hv, by simpa using hpv, ?_⟩
      intro j hj w hw
      have := hmin j hj w hw
      simpa using this
    · rintro ⟨i, hu, hname, hmin⟩
      have hpos2 : Chm.position (fun m => m.pretty_name == name) c.members
          = some i := by
        apply (chm_position_some (fun m => m.pretty_name == name)
          c.members i).mpr
        refine ⟨⟨u, hu, by simpa using hname⟩, ?_⟩
        intro j hj v hv
        simpa using hmin j hj v hv
      exact Option.bind_eq_some.mpr ⟨i, hpos2, hu⟩
  · intro c name
    unfold Chm.ChatWithDetails.resolve_member
      Chm.ChatWithDetails.resolve_member_index
    cases hx : Chm.position (fun m => m.pretty_name == name) c.members with
    | none =>
      constructor
      · intro h2 u hu
        have := (chm_position_none (fun m => m.pretty_name == name)
          c.members).mp hx u hu
        simpa using this
      · intro h2
        rfl
    | some i =>
      obtain ⟨⟨v, hv, hpv⟩, hmin⟩ :=
        (chm_position_some (fun m => m.pretty_name == name) c.members i).mp hx
      constructor
      · intro h2
        have h3 : c.members[i]? = none := h2
        rw [hv] at h3
        exact Option.noConfusion h3
      · intro h2
        exact absurd (by simpa using hpv)
          (h2 v (chm_getElem_mem c.members i v hv))
  · intro c names
    simp [Chm.ChatWithDetails.resolve_members]
  · intro c names i
    simp [Chm.ChatWithDetails.resolve_members, List.getElem?_map]

/-- C9 witness: resolution in a two-member chat picks the first exact
pretty-name match and misses an absent name. -/
theorem resolve_member_exact_match_witness :
    (Chm.ChatWithDetails.resolve_members
      ⟨⟨none, 1, none, []⟩, none,
        [⟨none, 1, some "Ann", none, none, none⟩,
          ⟨none, 2, some "Bob", none, none, none⟩]⟩
      ["Bob", "Zed"]).length = 2 :=
  resolve_member_exact_match.2.2.1
    ⟨⟨none, 1, none, []⟩, none,
      [⟨none, 1, some "Ann", none, none, none⟩,
        ⟨none, 2, some "Bob", none, none, none⟩]⟩
    ["Bob", "Zed"]

/-- C4: a dataset-scoped request whose key is absent from the registry fails
with the distinct `FailedPrecondition` status naming the key; every other
internal failure — poisoned registry lock, poisoned dao mutex, or an error of
the request logic — is collapsed to the generic `Internal` code; and no
status other than these two classifications can be produced. -/
theorem request_error_classification {Q P Dao : Type} (key : String) (q : Q) :
    (∀ (daos : List (String × Chm.LockState Dao))
        (logic : Q → Dao → Except String P),
      Chm.lookupDao daos key = none →
      Chm.process_request_with_dao (Chm.LockState.healthy daos) key logic q =
        Except.error ⟨Chm.Code.failedPrecondition,
          "Database with key " ++ key ++ " is not loaded!"⟩) ∧
    (∀ (logic : Q → Dao → Except String P),
      Chm.process_request_with_dao Chm.LockState.poisoned key logic q =
        Except.error ⟨Chm.Code.internal, "RwLock is poisoned!"⟩) ∧
    (∀ daos (logic : Q → Dao → Except String P),
      Chm.lookupDao daos key = some Chm.LockState.poisoned →
      Chm.process_request_with_dao (Chm.LockState.healthy daos) key logic q =
        Except.error ⟨Chm.Code.internal, "Mutex is poisoned!"⟩) ∧
    (∀ daos (logic : Q → Dao → Except String P) dao e,
      Chm.lookupDao daos key = some (Chm.LockState.healthy dao) →
      logic q dao = Except.error e →
      Chm.process_request_with_dao (Chm.LockState.healthy daos) key logic q =
        Except.error ⟨Chm.Code.internal, e⟩) ∧
    (∀ (registry : Chm.LockState (List (String × Chm.LockState Dao)))
        (logic : Q → Dao → Except String P) (st : Chm.Status),
      Chm.process_request_with_dao registry key logic q = Except.error st →
      st.code = Chm.Code.internal ∨
        (st.code = Chm.Code.failedPrecondition ∧
          st.message = "Database with key " ++ key ++ " is not loaded!")) := by
  refine ⟨?_, fun logic => rfl, ?_, ?_, ?_⟩
  · intro daos logic hnone
    simp only [Chm.process_request_with_dao, Chm.read_or_status, hnone]
  · intro daos logic hp
    simp only [Chm.process_request_with_dao, Chm.read_or_status, hp,
      Chm.lock_or_status]
  · intro daos logic dao e hl hlog
    simp only [Chm.process_request_with_dao, Chm.read_or_status, hl,
      Chm.lock_or_status, Chm.process_request, hlog]
  · intro registry logic st h
    cases registry with
    | poisoned =>
      unfold Chm.process_request_with_dao Chm.read_or_status at h
      injection h with h2
      subst h2
      exact Or.inl rfl
    | healthy daos =>
      have h2 : (match Chm.lookupDao daos key with
          | none =>
            Except.error (⟨Chm.Code.failedPrecondition,
              "Database with key " ++ key ++ " is not loaded!"⟩ : Chm.Status)
          | some daoLock =>
            match Chm.lock_or_status daoLock with
            | Except.error st2 => Except.error st2
            | Except.ok dao =>
              Chm.process_request (fun q2 => logic q2 dao) q) =
          Except.error st := h
      cases hl : Chm.lookupDao daos key with
      | none =>
        rw [hl] at h2
        injection h2 with h3
        subst h3
        exact Or.inr ⟨rfl, rfl⟩
      | some daoLock =>
        rw [hl] at h2
        cases daoLock with
        | poisoned =>
          injection h2 with h3
          subst h3
          exact Or.inl rfl
        | healthy dao =>
          have h4 : (match logic q dao with
              | Except.ok p => (Except.ok p : Except Chm.Status P)
              | Except.error e =>
                Except.error ⟨Chm.Code.internal, e⟩) = Except.error st := h2
          cases hres : logic q dao with
          | ok p => rw [hres] at h4; exact Except.noConfusion h4
          | error e =>
            rw [hres] at h4
            injection h4 with h3
            subst h3
            exact Or.inl rfl

/-- C4 witness: an empty registry behind a healthy lock rejects the key with
the named precondition failure. -/
theorem request_error_classification_witness :
    Chm.process_request_with_dao
      (Chm.LockState.healthy ([] : List (String × Chm.LockState Unit)))
      "key1" (fun (_ : Unit) (_ : Unit) => (Except.ok () : Except String Unit))
      () =
    Except.error ⟨Chm.Code.failedPrecondition,
      "Database with key " ++ "key1" ++ " is not loaded!"⟩ :=
  (request_error_classification "key1" ()).1 []
    (fun _ _ => Except.ok ()) rfl

/-- C5: when the myself resolver fails (or the chat parse itself fails), the
single-chat parser returns that failure with the `myself` accumulator left
entirely unchanged; when the resolver returns an in-range index, all of the
chosen candidate's identity fields (id, first name, last name, username,
phone) are applied to the accumulator together. -/
theorem parse_myself_atomic :
    (∀ (ds : Chm.PbUuid) (ch : List Chm.User → Except String Nat)
        (myself : Chm.User) (e : String),
      Chm.parse (Except.error e) ds ch myself =
        (myself, Chm.POutcome.err e)) ∧
    (∀ users cwm ds ch (myself : Chm.User) e, ch users = Except.error e →
      Chm.parse (Except.ok (users, cwm)) ds ch myself =
        (myself, Chm.POutcome.err e)) ∧
    (∀ users cwm ds ch (myself : Chm.User) idx (h : idx < users.length),
      ch users = Except.ok idx →
      Chm.parse (Except.ok (users, cwm)) ds ch myself =
        ({ myself with
            id := (users.get ⟨idx, h⟩).id
            first_name_option := (users.get ⟨idx, h⟩).first_name_option
            last_name_option := (users.get ⟨idx, h⟩).last_name_option
            username_option := (users.get ⟨idx, h⟩).username_option
            phone_number_option := (users.get ⟨idx, h⟩).phone_number_option },
          Chm.POutcome.ok (users,
            [{ cwm with
                chat := (cwm.chat.map (fun c => { c with ds_uuid := some ds })) }]))) := by
  refine ⟨fun ds ch myself e => rfl, ?_, ?_⟩
  · intro users cwm ds ch myself e hch
    simp only [Chm.parse, hch]
  · intro users cwm ds ch myself idx h hch
    simp only [Chm.parse, hch]
    rw [dif_pos h]

/-- C5 witness: a successful resolver answer applied to a one-candidate
chat. -/
theorem parse_myself_atomic_witness :
    Chm.parse
      (Except.ok ([⟨none, 7, some "A", some "B", some "un", some "ph"⟩],
        ⟨none, []⟩))
      ⟨"u"⟩ (fun _ => Except.ok 0)
      ⟨some ⟨"u"⟩, 1, none, none, none, none⟩ =
    (⟨some ⟨"u"⟩, 7, some "A", some "B", some "un", some "ph"⟩,
      Chm.POutcome.ok
        ([⟨none, 7, some "A", some "B", some "un", some "ph"⟩],
          [⟨none, []⟩])) :=
  parse_myself_atomic.2.2
    [⟨none, 7, some "A", some "B", some "un", some "ph"⟩] ⟨none, []⟩
    ⟨"u"⟩ (fun _ => Except.ok 0) ⟨some ⟨"u"⟩, 1, none, none, none, none⟩
    0 (by decide) rfl

/-- C10: when the myself resolver returns an index that is not smaller than
the number of candidate users, the single-chat parser panics on the
out-of-bounds vector index instead of returning an error: the index is not
validated before use. -/
theorem parse_unvalidated_index_panics :
    ∀ users cwm ds ch (myself : Chm.User) idx, ch users = Except.ok idx →
      users.length ≤ idx →
      (Chm.parse (Except.ok (users, cwm)) ds ch myself).2 =
        Chm.POutcome.panic := by
  intro users cwm ds ch myself idx hch hlen
  simp only [Chm.parse, hch]
  rw [dif_neg (by omega)]

/-- C10 witness: a resolver answering index 0 for an empty candidate list
makes the parser panic. -/
theorem parse_unvalidated_index_panics_witness :
    (Chm.parse (Except.ok ([], ⟨none, []⟩)) ⟨"u"⟩ (fun _ => Except.ok 0)
      ⟨none, 1, none, none, none, none⟩).2 = Chm.POutcome.panic :=
  parse_unvalidated_index_panics [] ⟨none, []⟩ ⟨"u"⟩ (fun _ => Except.ok 0)
    ⟨none, 1, none, none, none, none⟩ 0 rfl (by decide)

/-- C2: `make_searchable_string` returns exactly the claim-worded composition
(`searchableStringSpec`): nonempty element searchable texts space-joined,
followed by the payload-specific texts, empty parts excluded. Element
constructors store the normalized text, and normalization replaces every run
of separator/invisible-formatting/newline characters by a single ASCII space
and trims: its output contains collapsible characters only as single spaces,
never two adjacent spaces, starts and ends with non-whitespace, and preserves
all other characters in order. Includes the spec's two concrete vectors. -/
theorem searchable_string_composition :
    (∀ (comps : List Chm.RichTextElement) (typed : Chm.Typed) (s : String),
      Chm.searchableStringSpec comps typed = some s →
      Chm.make_searchable_string comps typed = Chm.POutcome.ok s) ∧
    (∀ t, (Chm.RichText.make_plain t).searchable_string =
      Chm.normalize_seachable_string t) ∧
    (∀ t, (Chm.RichText.make_bold t).searchable_string =
      Chm.normalize_seachable_string t) ∧
    (∀ s : String, ∀ c ∈ (Chm.normalize_seachable_string s).data,
      Chm.isCollapsible c = true → c = Chm.spaceChar) ∧
    (∀ s : String, List.Chain'
      (fun a b => ¬(a = Chm.spaceChar ∧ b = Chm.spaceChar))
      (Chm.normalize_seachable_string s).data) ∧
    (∀ (s : String) (c : Char) (t : List Char),
      (Chm.normalize_seachable_string s).data = c :: t →
      Chm.isRustWhitespace c = false) ∧
    (∀ (s : String) (c : Char) (t : List Char),
      (Chm.normalize_seachable_string s).data.reverse = c :: t →
      Chm.isRustWhitespace c = false) ∧
    (∀ s : String,
      (Chm.normalize_seachable_string s).data.filter Chm.keepChar
        = s.data.filter Chm.keepChar) ∧
    Chm.make_searchable_string [Chm.RichText.make_plain "Sending you a text!"]
      (Chm.Typed.regular ⟨none, false, none, none, none⟩)
      = Chm.POutcome.ok "Sending you a text!" ∧
    Chm.make_searchable_string []
      (Chm.Typed.regular ⟨none, false, none, none,
        some ⟨some (Chm.ContentVal.sticker ⟨none, none, some ""⟩)⟩⟩)
      = Chm.POutcome.ok "" := by
  refine ⟨?_, fun t => rfl, fun t => rfl, ?_, ?_, ?_, ?_, ?_, by decide, by decide⟩
  · intro comps typed s h
    unfold Chm.searchableStringSpec at h
    unfold Chm.make_searchable_string
    cases ht : Chm.typedSearchableTexts typed with
    | none => rw [ht] at h; exact absurd h (by simp)
    | some texts =>
      rw [ht] at h
      have h2 := Option.some.inj h
      rw [← h2]
      exact congrArg Chm.POutcome.ok (chm_trim_join_filter_two _ _)
  · intro s c hc hcol
    exact chm_collapse_mem_space _ false c (chm_trimChars_mem _ c hc) hcol
  · intro s
    exact chm_trimChars_chain _ (chm_collapse_chain _ false)
  · intro s c t h
    exact chm_trimChars_head_false _ c t h
  · intro s c t h
    exact chm_trimChars_reverse_head_false _ c t h
  · intro s
    exact (chm_trimChars_filter _).trans (chm_collapse_filter _ false)

/-- C2 witness: the refinement conjunct applied to the spec's plain-text
vector, with its hypothesis discharged by evaluation. -/
theorem searchable_string_composition_witness :
    Chm.make_searchable_string [Chm.RichText.make_plain "Sending you a text!"]
      (Chm.Typed.regular ⟨none, false, none, none, none⟩)
      = Chm.POutcome.ok "Sending you a text!" :=
  searchable_string_composition.1 _ _ _ (by decide)

/-- C6: every `Message` built by `Message::new` stores its payload as present
(exactly one of Regular or Service), its searchable string is exactly
`make_searchable_string` of its text and payload, and the `typed()` /
`typed_mut()` accessors return that payload without hitting their
"Invalid typed message" panic branch. -/
theorem message_new_typed_invariant (internal_id : Int)
    (source_id_option : Option Int) (timestamp : Int) (from_id : Int)
    (text : List Chm.RichTextElement) (typed : Chm.Typed) (m : Chm.Message)
    (h : Chm.Message.new internal_id source_id_option timestamp from_id text
      typed = Chm.POutcome.ok m) :
    m.typed = some typed ∧
    Chm.make_searchable_string m.text typed =
      Chm.POutcome.ok m.searchable_string ∧
    Chm.Message.typedOrPanic m = Chm.POutcome.ok typed ∧
    ((∃ mr, m.typed = some (Chm.Typed.regular mr)) ∨
      (∃ ms, m.typed = some (Chm.Typed.service ms))) := by
  unfold Chm.Message.new at h
  cases hs : Chm.make_searchable_string text typed with
  | ok s =>
    rw [hs] at h
    cases h
    refine ⟨rfl, ?_, rfl, ?_⟩
    · simpa using hs
    · cases typed with
      | regular mr => exact Or.inl ⟨mr, rfl⟩
      | service ms => exact Or.inr ⟨ms, rfl⟩
  | err e => rw [hs] at h; cases h
  | panic => rw [hs] at h; cases h

/-- C6 witness: `Message::new` applied to a plain-text Regular message. -/
theorem message_new_typed_invariant_witness :
    Chm.Message.typedOrPanic
      { internal_id := 0, source_id_option := some 5, timestamp := 100,
        from_id := 7,
        text := [Chm.RichText.make_plain "hi"],
        searchable_string := "hi",
        typed := some (Chm.Typed.regular ⟨none, false, none, none, none⟩) } =
      Chm.POutcome.ok (Chm.Typed.regular ⟨none, false, none, none, none⟩) :=
  (message_new_typed_invariant 0 (some 5) 100 7
    [Chm.RichText.make_plain "hi"]
    (Chm.Typed.regular ⟨none, false, none, none, none⟩) _ rfl).2.2.1

/-- C7: equality on `MasterMessage` (and likewise `SlaveMessage`) holds iff
the wrapped messages agree on `internal_id` and `source_id_option`; no other
field (text, timestamp, sender, content) influences the result. -/
theorem master_slave_message_eq_by_ids :
    (∀ a b : Chm.MasterMessage, Chm.MasterMessage.eq a b = true ↔
      a.msg.internal_id = b.msg.internal_id ∧
      a.msg.source_id_option = b.msg.source_id_option) ∧
    (∀ a b : Chm.SlaveMessage, Chm.SlaveMessage.eq a b = true ↔
      a.msg.internal_id = b.msg.internal_id ∧
      a.msg.source_id_option = b.msg.source_id_option) ∧
    (∀ a b a2 b2 : Chm.MasterMessage,
      a.msg.internal_id = a2.msg.internal_id →
      b.msg.internal_id = b2.msg.internal_id →
      a.msg.source_id_option = a2.msg.source_id_option →
      b.msg.source_id_option = b2.msg.source_id_option →
      Chm.MasterMessage.eq a b = Chm.MasterMessage.eq a2 b2) ∧
    (∀ a b a2 b2 : Chm.SlaveMessage,
      a.msg.internal_id = a2.msg.internal_id →
      b.msg.internal_id = b2.msg.internal_id →
      a.msg.source_id_option = a2.msg.source_id_option →
      b.msg.source_id_option = b2.msg.source_id_option →
      Chm.SlaveMessage.eq a b = Chm.SlaveMessage.eq a2 b2) := by
  refine ⟨?_, ?_, ?_, ?_⟩
  · intro a b; simp [Chm.MasterMessage.eq]
  · intro a b; simp [Chm.SlaveMessage.eq]
  · intro a b a2 b2 h1 h2 h3 h4; simp [Chm.MasterMessage.eq, h1, h2, h3, h4]
  · intro a b a2 b2 h1 h2 h3 h4; simp [Chm.SlaveMessage.eq, h1, h2, h3, h4]

/-- C7 witness: two master messages sharing ids but differing in timestamp
compare equal, at concrete inputs. -/
theorem master_slave_message_eq_by_ids_witness :
    Chm.MasterMessage.eq
      ⟨{ internal_id := 1, source_id_option := some 2, timestamp := 10,
         from_id := 3, text := [], searchable_string := "a", typed := none }⟩
      ⟨{ internal_id := 1, source_id_option := some 2, timestamp := 99,
         from_id := 4, text := [], searchable_string := "b", typed := none }⟩ =
      true := by
  exact (master_slave_message_eq_by_ids.1 _ _).mpr ⟨rfl, rfl⟩
